import Mathlib

/-!
Shallow embedding of `sharedstreets/tile.py` (migurski/sharedstreets-python)
and proofs about it.

Conventions of the embedding:
* Python `str` is `String`; `bytes` is `List Nat` (each element a byte value);
  Python floats (coordinates) are modelled as exact rationals `ℚ`;
  protobuf integer fields are `ℤ` or `Nat`.
* Code that can raise returns `Option`/`Except`; `none`/`.error` marks the
  raised exception.
* Python `dict` (insertion ordered, last value wins on duplicate keys) is
  modelled as an association list built by `dictInsert`.
* External collaborators (HTTP transport, the ModestMaps tile mapper, the
  compiled protobuf codec) are parameters: `get_tile` takes the bbox corners
  and the three already-decoded record streams, `iter_objects` takes the raw
  byte buffer and a record decoder function.
-/

namespace SharedStreets

/-- Model of `truncate_id`: `id[:12]`, the first 12 characters of the id. -/
def truncate_id (id : String) : String := String.mk (id.data.take 12)

/-- Round a rational to the nearest integer, ties to even: the rounding mode
of Python's builtin `round`. -/
def bankersRound (q : ℚ) : ℤ :=
  if q - ⌊q⌋ < 1 / 2 then ⌊q⌋
  else if 1 / 2 < q - ⌊q⌋ then ⌊q⌋ + 1
  else if 2 ∣ ⌊q⌋ then ⌊q⌋ else ⌊q⌋ + 1

/-- Model of `round_coord`: Python `round(float, 7)`, decimal rounding at 7
places (ties to even), over exact rationals. -/
def round_coord (v : ℚ) : ℚ := (bankersRound (v * 10 ^ 7) : ℚ) / 10 ^ 7

/-- A lon/lat pair as produced by `OSM.coordinateLocation` (ModestMaps
`Location`). -/
structure Location where
  lat : ℚ
  lon : ℚ

/-- Decoded `SharedStreetsGeometry` record (the fields `tile.py` reads). -/
structure Geometry where
  id : String
  fromIntersectionId : String
  toIntersectionId : String
  forwardReferenceId : String
  backReferenceId : String
  roadClass : Nat
  lonlats : List ℚ

/-- Decoded `SharedStreetsIntersection` record (the fields `tile.py` reads). -/
structure Intersection where
  id : String
  lon : ℚ
  lat : ℚ
  inboundReferenceIds : List String
  outboundReferenceIds : List String

/-- One entry of a reference's `locationReferences`. -/
structure LocationReference where
  intersectionId : String
  lon : ℚ
  lat : ℚ
  distanceToNextRef : ℤ
  inboundBearing : ℤ
  outboundBearing : ℤ

/-- Decoded `SharedStreetsReference` record (the fields `tile.py` reads). -/
structure Reference where
  id : String
  geometryId : String
  formOfWay : Nat
  locationReferences : List LocationReference

/-- Model of the comprehension `[geometry.lonlats[i] for i in
range(0, len(geometry.lonlats), 2)]`: the even-indexed elements. -/
def evenItems : List ℚ → List ℚ
  | [] => []
  | [x] => [x]
  | x :: _ :: rest => x :: evenItems rest

/-- Model of the comprehension `[geometry.lonlats[i] for i in
range(1, len(geometry.lonlats), 2)]`: the odd-indexed elements. -/
def oddItems : List ℚ → List ℚ
  | [] => []
  | [_] => []
  | _ :: y :: rest => y :: oddItems rest

/-- Model of `is_inside(southwest, northeast, geometry)`.  Python's
`max`/`min` raise `ValueError` on an empty sequence; `none` models that
raise.  Evaluation order follows the source: the longitude comparisons run
first (returning `False` short-circuits before the latitude lists' extrema
are taken). -/
def is_inside (southwest northeast : Location) (geometry : Geometry) : Option Bool :=
  let lons := evenItems geometry.lonlats
  let lats := oddItems geometry.lonlats
  match lons.max?, lons.min? with
  | some maxLon, some minLon =>
    if maxLon < southwest.lon ∨ northeast.lon < minLon then some false
    else
      match lats.max?, lats.min? with
      | some maxLat, some minLat =>
        if maxLat < southwest.lat ∨ northeast.lat < minLat then some false
        else some true
      | _, _ => none
  | _, _ => none

/-- Shape of the dictionary built by `geometry_feature`. -/
structure GeometryFeature where
  ftype : String
  role : String
  id : String
  propertiesId : String
  forwardReferenceId : String
  startIntersectionId : String
  backReferenceId : String
  endIntersectionId : String
  roadClass : Nat
  geometryType : String
  coordinates : List (List ℚ)

/-- Model of `geometry_feature(geometry)`.  The coordinate list is the
`zip` of the rounded even-indexed and rounded odd-indexed values; like
Python's `zip` it silently truncates to the shorter list. -/
def geometry_feature (geometry : Geometry) : GeometryFeature :=
  { ftype := "Feature"
    role := "SharedStreets:Geometry"
    id := truncate_id geometry.id
    propertiesId := truncate_id geometry.id
    forwardReferenceId := truncate_id geometry.forwardReferenceId
    startIntersectionId := truncate_id geometry.fromIntersectionId
    backReferenceId := truncate_id geometry.backReferenceId
    endIntersectionId := truncate_id geometry.toIntersectionId
    roadClass := geometry.roadClass
    geometryType := "LineString"
    coordinates :=
      (((evenItems geometry.lonlats).map round_coord).zip
        ((oddItems geometry.lonlats).map round_coord)).map fun p => [p.1, p.2] }

/-- Shape of one entry of the output `locationReferences` array. -/
structure LocationReferenceOut where
  sequence : Nat
  intersectionId : String
  distanceToNextRef : Option ℤ
  bearing : Option ℤ
  outBearing : Option ℤ
  point : List ℚ

/-- Shape of the dictionary built by `reference_feature`. -/
structure ReferenceFeature where
  role : String
  id : String
  geometryId : String
  formOfWay : Nat
  locationReferences : List LocationReferenceOut

/-- Model of `reference_feature(reference)`.  The unpacking
`LR0, LR1 = reference.locationReferences` raises `ValueError` unless the
list has exactly two entries; `none` models that raise. -/
def reference_feature (reference : Reference) : Option ReferenceFeature :=
  match reference.locationReferences with
  | [LR0, LR1] =>
    some
      { role := "SharedStreets:Reference"
        id := truncate_id reference.id
        geometryId := truncate_id reference.geometryId
        formOfWay := reference.formOfWay
        locationReferences :=
          [ { sequence := 0
              intersectionId := truncate_id LR0.intersectionId
              distanceToNextRef := some LR0.distanceToNextRef
              bearing := some LR0.inboundBearing
              outBearing := some LR0.outboundBearing
              point := [round_coord LR0.lon, round_coord LR0.lat] },
            { sequence := 1
              intersectionId := truncate_id LR1.intersectionId
              distanceToNextRef := none
              bearing := none
              outBearing := none
              point := [round_coord LR1.lon, round_coord LR1.lat] } ] }
  | _ => none

/-- An id-keyed, insertion-ordered mapping (Python `dict` with `String`
keys). -/
abbrev Dict (α : Type) : Type := List (String × α)

/-- Python `d[k] = v`: overwrite in place when the key is present, append
otherwise. -/
def dictInsert {α : Type} (d : Dict α) (k : String) (v : α) : Dict α :=
  if d.any (fun p => p.1 == k) then
    d.map fun p => if p.1 == k then (k, v) else p
  else d ++ [(k, v)]

/-- The dict comprehension pattern (insertion order, last value wins). -/
def buildDict {α : Type} (key : α → String) (items : List α) : Dict α :=
  items.foldl (fun d it => dictInsert d (key it) it) []

/-- Keys of a dict, in order. -/
def dictKeys {α : Type} (d : Dict α) : List String := d.map Prod.fst

/-- Values of a dict, in order. -/
def dictValues {α : Type} (d : Dict α) : List α := d.map Prod.snd

/-- The generator `geom for geom in ... if is_inside(tile_sw, tile_ne, geom)`:
keeps the geometries passing the bbox test and propagates a raise from
`is_inside` (modelled as `none`) to the whole comprehension. -/
def filterInside (southwest northeast : Location) : List Geometry → Option (List Geometry)
  | [] => some []
  | g :: rest =>
    match is_inside southwest northeast g with
    | none => none
    | some true => (filterInside southwest northeast rest).map fun gs => g :: gs
    | some false => filterInside southwest northeast rest

/-- Model of `get_tile`.  The tile-coordinate math, URL construction and
HTTP fetches are external collaborators; here the function takes the display
tile's bbox corners (`tile_sw`, `tile_ne`) and the three decoded record
streams, and performs the filter and the two id joins of the source.
`none` models a raise inside the geometry filtering. -/
def get_tile (southwest northeast : Location) (geomSrc : List Geometry)
    (interSrc : List Intersection) (refSrc : List Reference) :
    Option (Dict Geometry × Dict Intersection × Dict Reference) :=
  match filterInside southwest northeast geomSrc with
  | none => none
  | some gs =>
    let geometries : Dict Geometry := buildDict Geometry.id gs
    let intersection_ids : List String :=
      (dictValues geometries).flatMap fun geom =>
        [geom.fromIntersectionId, geom.toIntersectionId]
    let intersections : Dict Intersection :=
      buildDict Intersection.id
        (interSrc.filter fun inter => intersection_ids.contains inter.id)
    let references : Dict Reference :=
      buildDict Reference.id
        (refSrc.filter fun ref => (dictKeys geometries).contains ref.geometryId)
    some (geometries, intersections, references)

/-- The ways the decoding loop of `iter_objects` can raise. -/
inductive DecodeError where
  | indexError
  | tooManyBytes
  | messageDecodeError
deriving DecidableEq

/-- Model of the loop body of protobuf's `_DecodeVarint32` on the bytes from
the current position on: accumulate 7 bits per byte (`result |=
(b & 0x7f) << shift`), stop on a byte with the continuation bit clear and
mask the result to 32 bits, raise past 64 bits of shift (`tooManyBytes`) or
past the buffer end (`indexError`).  Returns the decoded value and the
number of bytes consumed. -/
def decodeVarintList (shift acc : Nat) : List Nat → Except DecodeError (Nat × Nat)
  | [] => .error .indexError
  | b :: rest =>
    if b &&& 128 == 0 then .ok ((acc ||| ((b &&& 127) <<< shift)) &&& (2 ^ 32 - 1), 1)
    else if 64 ≤ shift + 7 then .error .tooManyBytes
    else
      match decodeVarintList (shift + 7) (acc ||| ((b &&& 127) <<< shift)) rest with
      | .ok (v, c) => .ok (v, c + 1)
      | .error e => .error e

/-- Model of `_DecodeVarint32(buffer, pos)`: returns the decoded value and
the new position. -/
def decodeVarint32 (buf : List Nat) (pos : Nat) : Except DecodeError (Nat × Nat) :=
  match decodeVarintList 0 0 (buf.drop pos) with
  | .ok (v, c) => .ok (v, pos + c)
  | .error e => .error e

theorem decodeVarintList_one_le_consumed :
    ∀ (l : List Nat) (shift acc v c : Nat),
      decodeVarintList shift acc l = .ok (v, c) → 1 ≤ c := by
  intro l
  induction l with
  | nil => intro shift acc v c h; simp [decodeVarintList] at h
  | cons b rest ih =>
    intro shift acc v c h
    rw [decodeVarintList] at h
    split at h
    · simp only [Except.ok.injEq, Prod.mk.injEq] at h
      omega
    · split at h
      · simp at h
      · split at h
        · rename_i v' c' _
          simp only [Except.ok.injEq, Prod.mk.injEq] at h
          omega
        · simp at h

theorem decodeVarint32_pos_lt {buf : List Nat} {pos v p : Nat}
    (h : decodeVarint32 buf pos = .ok (v, p)) : pos < p := by
  rw [decodeVarint32] at h
  split at h
  · rename_i v' c hdl
    have := decodeVarintList_one_le_consumed _ _ _ _ _ hdl
    simp only [Except.ok.injEq, Prod.mk.injEq] at h
    omega
  · simp at h

/-- Model of the decoding loop of `iter_objects` from position `pos`:
read a varint message length, slice that many bytes (Python slicing silently
truncates a slice that runs past the end), decode the slice with the record
decoder `parse` (`none` models a `DecodeError` raise from `ParseFromString`),
yield the record and continue past the slice.  Returns the records yielded
before the loop ends and the raise, if any, that ended it. -/
def iterObjectsAux {α : Type} (parse : List Nat → Option α) (buf : List Nat)
    (pos : Nat) : List α × Option DecodeError :=
  if h : pos < buf.length then
    match hdv : decodeVarint32 buf pos with
    | .error e => ([], some e)
    | .ok (message_length, new_position) =>
      match parse ((buf.drop new_position).take message_length) with
      | none => ([], some .messageDecodeError)
      | some object =>
        let rest := iterObjectsAux parse buf (new_position + message_length)
        (object :: rest.1, rest.2)
  else ([], none)
termination_by buf.length - pos
decreasing_by
  have := decodeVarint32_pos_lt hdv
  omega

/-- Model of `iter_objects(url, DataClass)`: the HTTP fetch is external, so
the function takes the response body `buf`; `parse` is
`DataClass().ParseFromString`. -/
def iter_objects {α : Type} (parse : List Nat → Option α) (buf : List Nat) :
    List α × Option DecodeError :=
  iterObjectsAux parse buf 0

/-- The minimal little-endian base-128 varint encoding of `n`, as emitted by
protobuf writers. -/
def encodeVarint (n : Nat) : List Nat :=
  if n < 128 then [n] else (n % 128 + 128) :: encodeVarint (n / 128)
termination_by n
decreasing_by exact Nat.div_lt_self (by omega) (by omega)

/-- A buffer that is the concatenation of varint-length-prefixed messages. -/
def frames (msgs : List (List Nat)) : List Nat :=
  (msgs.map fun m => encodeVarint m.length ++ m).flatten

theorem and127_shiftLeft_or (n s : Nat) :
    ((n &&& 127) <<< s) ||| ((n >>> 7) <<< (s + 7)) = n <<< s := by
  apply Nat.eq_of_testBit_eq
  intro i
  have h127 : (127 : Nat) = 2 ^ 7 - 1 := rfl
  rw [h127]
  simp only [Nat.testBit_or, Nat.testBit_shiftLeft, Nat.testBit_shiftRight,
    Nat.testBit_and, Nat.testBit_two_pow_sub_one, ge_iff_le]
  rcases Nat.lt_or_ge i s with h1 | h1
  · simp [Nat.not_le.mpr h1, show ¬ s + 7 ≤ i by omega]
  · rcases Nat.lt_or_ge i (s + 7) with h2 | h2
    · simp [h1, Nat.not_le.mpr h2, show i - s < 7 by omega]
    · have e : 7 + (i - (s + 7)) = i - s := by omega
      simp [h1, h2, show ¬ i - s < 7 by omega, e]

theorem encodeVarint_ne_nil (n : Nat) : encodeVarint n ≠ [] := by
  rw [encodeVarint]
  split <;> simp

theorem encodeVarint_length_le : ∀ (k n : Nat), n < 2 ^ (7 * k + 7) →
    (encodeVarint n).length ≤ k + 1 := by
  intro k
  induction k with
  | zero =>
    intro n hn
    rw [encodeVarint]
    have : n < 128 := by norm_num at hn; omega
    simp [this]
  | succ k ih =>
    intro n hn
    rw [encodeVarint]
    split
    · simp
    · rename_i h
      have hd : n / 128 < 2 ^ (7 * k + 7) := by
        apply Nat.div_lt_of_lt_mul
        calc n < 2 ^ (7 * (k + 1) + 7) := hn
        _ = 128 * 2 ^ (7 * k + 7) := by ring
      have := ih (n / 128) hd
      simp only [List.length_cons]
      omega

theorem decodeVarintList_encodeVarint :
    ∀ (n s acc : Nat) (rest : List Nat), s + 7 * (encodeVarint n).length ≤ 70 →
      decodeVarintList s acc (encodeVarint n ++ rest) =
        .ok ((acc ||| (n <<< s)) &&& (2 ^ 32 - 1), (encodeVarint n).length) := by
  intro n
  induction n using Nat.strong_induction_on with
  | _ n ih =>
    intro s acc rest hs
    rw [encodeVarint] at hs ⊢
    by_cases h : n < 128
    · rw [if_pos h] at hs ⊢
      simp only [List.cons_append, List.nil_append]
      rw [decodeVarintList]
      have h2p : n < 2 ^ 7 := by rw [show (2 : Nat) ^ 7 = 128 from rfl]; exact h
      have hb : (n &&& 128) == 0 := by
        have hz : n &&& 128 = 0 := by
          apply Nat.eq_of_testBit_eq
          intro i
          simp only [Nat.testBit_and, Nat.zero_testBit, show (128 : Nat) = 2 ^ 7 from rfl,
            Nat.testBit_two_pow]
          by_cases h7 : (7 : Nat) = i
          · subst h7
            simp [Nat.testBit_lt_two_pow h2p]
          · simp [h7]
        simp [hz]
      have h127 : n &&& 127 = n := by
        have he : n &&& 127 = n % 2 ^ 7 := Nat.and_pow_two_sub_one_eq_mod n 7
        rw [he, Nat.mod_eq_of_lt h2p]
      rw [if_pos hb, h127]
      simp
    · rw [if_neg h] at hs ⊢
      simp only [List.cons_append]
      rw [decodeVarintList]
      have hb : ¬ ((n % 128 + 128) &&& 128 == 0) := by
        have : (n % 128 + 128) &&& 128 = 128 := by
          apply Nat.eq_of_testBit_eq
          intro i
          simp only [Nat.testBit_and, show (128 : Nat) = 2 ^ 7 from rfl, Nat.testBit_two_pow]
          by_cases h7 : (7 : Nat) = i
          · subst h7
            have : (n % 128 + 128).testBit 7 = true := by
              rw [Nat.testBit_to_div_mod]
              have : (n % 128 + 128) / 2 ^ 7 = 1 := by
                have hm : n % 128 < 128 := Nat.mod_lt n (by omega)
                rw [show (2 : Nat) ^ 7 = 128 from rfl]
                omega
              simp [this]
            simp [this]
          · simp [h7]
        simp [this]
      rw [if_neg hb]
      have hlen1 : 0 < (encodeVarint (n / 128)).length :=
        List.length_pos.mpr (encodeVarint_ne_nil _)
      simp only [List.length_cons] at hs
      have hguard : ¬ 64 ≤ s + 7 := by omega
      rw [if_neg hguard]
      have h127 : (n % 128 + 128) &&& 127 = n % 128 := by
        have : (n % 128 + 128) &&& 127 = (n % 128 + 128) % 2 ^ 7 :=
          Nat.and_pow_two_sub_one_eq_mod _ 7
        rw [this]
        have hm : n % 128 < 128 := Nat.mod_lt n (by omega)
        rw [show (2 : Nat) ^ 7 = 128 from rfl]
        omega
      have hrec := ih (n / 128) (Nat.div_lt_self (by omega) (by omega))
        (s + 7) (acc ||| ((n % 128 + 128) &&& 127) <<< s) rest (by omega)
      rw [hrec]
      have hval : (acc ||| ((n % 128 + 128) &&& 127) <<< s) ||| (n / 128) <<< (s + 7) =
          acc ||| n <<< s := by
        rw [h127, Nat.or_assoc]
        congr 1
        have hmod : n % 128 = n &&& 127 := by
          rw [Nat.and_pow_two_sub_one_eq_mod n 7]
        have hdiv : n / 128 = n >>> 7 := by
          rw [Nat.shiftRight_eq_div_pow]
        rw [hmod, hdiv, and127_shiftLeft_or]
      rw [hval]
      simp

theorem iterObjectsAux_frame_step {α : Type} (parse : List Nat → Option α)
    (buf : List Nat) (pos : Nat) (m t : List Nat) (o : α)
    (hdrop : buf.drop pos = (encodeVarint m.length ++ m) ++ t)
    (hm : m.length < 2 ^ 32) (hp : parse m = some o) :
    iterObjectsAux parse buf pos =
      (o :: (iterObjectsAux parse buf (pos + (encodeVarint m.length ++ m).length)).1,
       (iterObjectsAux parse buf (pos + (encodeVarint m.length ++ m).length)).2) := by
  have hennil : encodeVarint m.length ≠ [] := encodeVarint_ne_nil _
  have hne : buf.drop pos ≠ [] := by
    rw [hdrop]
    simp [List.append_eq_nil, hennil]
  have hlt : pos < buf.length := by
    by_contra hc
    exact hne (List.drop_eq_nil_of_le (by omega))
  have hlen5 : (encodeVarint m.length).length ≤ 5 :=
    encodeVarint_length_le 4 _ (lt_of_lt_of_le hm (by norm_num))
  have hdl : decodeVarintList 0 0 (buf.drop pos) =
      .ok (m.length, (encodeVarint m.length).length) := by
    rw [hdrop, List.append_assoc,
      decodeVarintList_encodeVarint m.length 0 0 (m ++ t) (by omega)]
    have hv : (0 ||| m.length <<< 0) &&& (2 ^ 32 - 1) = m.length := by
      simp only [Nat.zero_or, Nat.shiftLeft_zero, Nat.and_pow_two_sub_one_eq_mod]
      exact Nat.mod_eq_of_lt hm
    rw [hv]
  have hdv : decodeVarint32 buf pos =
      .ok (m.length, pos + (encodeVarint m.length).length) := by
    rw [decodeVarint32, hdl]
  rw [iterObjectsAux, dif_pos hlt]
  split
  · rename_i e heq
    rw [hdv] at heq
    cases heq
  · rename_i ml np heq
    rw [hdv] at heq
    simp only [Except.ok.injEq, Prod.mk.injEq] at heq
    obtain ⟨h1, h2⟩ := heq
    subst h1
    subst h2
    have hdrop2 : buf.drop (pos + (encodeVarint m.length).length) = m ++ t := by
      rw [← List.drop_drop, hdrop, List.append_assoc, List.drop_left]
    have hmsg : (buf.drop (pos + (encodeVarint m.length).length)).take m.length = m := by
      rw [hdrop2, List.take_left]
    rw [hmsg, hp]
    simp only [List.length_append, ← Nat.add_assoc]

theorem iterObjectsAux_frames {α : Type} (parse : List Nat → Option α) (t : List Nat) :
    ∀ (msgs : List (List Nat)) (buf : List Nat) (pos : Nat),
      buf.drop pos = frames msgs ++ t →
      (∀ m ∈ msgs, (parse m).isSome ∧ m.length < 2 ^ 32) →
      iterObjectsAux parse buf pos =
        (msgs.filterMap parse ++ (iterObjectsAux parse buf (pos + (frames msgs).length)).1,
         (iterObjectsAux parse buf (pos + (frames msgs).length)).2) := by
  intro msgs
  induction msgs with
  | nil =>
    intro buf pos hdrop hall
    simp [frames]
  | cons m rest ih =>
    intro buf pos hdrop hall
    obtain ⟨hsome, hlen⟩ := hall m (by simp)
    obtain ⟨o, ho⟩ := Option.isSome_iff_exists.mp hsome
    have hdrop1 : buf.drop pos = (encodeVarint m.length ++ m) ++ (frames rest ++ t) := by
      rw [hdrop]
      simp only [frames, List.map_cons, List.flatten_cons, List.append_assoc]
    have hstep := iterObjectsAux_frame_step parse buf pos m (frames rest ++ t) o hdrop1 hlen ho
    have hdrop2 : buf.drop (pos + (encodeVarint m.length ++ m).length) = frames rest ++ t := by
      rw [← List.drop_drop, hdrop1, List.drop_left]
    have hrec := ih buf (pos + (encodeVarint m.length ++ m).length) hdrop2
      (fun x hx => hall x (by simp [hx]))
    rw [hstep, hrec]
    have harith : pos + (encodeVarint m.length ++ m).length + (frames rest).length =
        pos + (frames (m :: rest)).length := by
      simp only [frames, List.map_cons, List.flatten_cons, List.length_append]
      omega
    rw [harith]
    simp [List.filterMap_cons, ho]

theorem iterObjectsAux_past_end {α : Type} (parse : List Nat → Option α)
    (buf : List Nat) (pos : Nat) (h : buf.length ≤ pos) :
    iterObjectsAux parse buf pos = ([], none) := by
  rw [iterObjectsAux, dif_neg (by omega)]

theorem filterMap_length_of_forall_isSome {α : Type} (parse : List Nat → Option α) :
    ∀ (msgs : List (List Nat)), (∀ m ∈ msgs, (parse m).isSome) →
      (msgs.filterMap parse).length = msgs.length := by
  intro msgs
  induction msgs with
  | nil => simp
  | cons m rest ih =>
    intro hall
    obtain ⟨o, ho⟩ := Option.isSome_iff_exists.mp (hall m (by simp))
    simp [List.filterMap_cons, ho, ih fun x hx => hall x (by simp [hx])]

/-- C2: for every byte buffer that is the concatenation of N valid
varint-length-prefixed protobuf messages (each accepted by the record
decoder, with a length expressible in the decoder's 32-bit mask),
`iter_objects` yields exactly N decoded records, in buffer order, with no
decode error. -/
theorem c2_iter_objects_yields_all_frames {α : Type} (parse : List Nat → Option α)
    (msgs : List (List Nat))
    (h : ∀ m ∈ msgs, (parse m).isSome ∧ m.length < 2 ^ 32) :
    iter_objects parse (frames msgs) = (msgs.filterMap parse, none) ∧
      (msgs.filterMap parse).length = msgs.length := by
  constructor
  · rw [iter_objects]
    have h0 : (frames msgs).drop 0 = frames msgs ++ [] := by simp
    rw [iterObjectsAux_frames parse [] msgs (frames msgs) 0 h0 h, Nat.zero_add,
      iterObjectsAux_past_end parse _ _ (le_refl _)]
    simp
  · exact filterMap_length_of_forall_isSome parse msgs fun m hm => (h m hm).1

/-- Witness for C2 at a concrete two-frame buffer. -/
theorem c2_iter_objects_yields_all_frames_witness :
    iter_objects (fun m => (some m : Option (List Nat))) (frames [[1, 2], []]) =
      ([[1, 2], []], none) := by
  have h := c2_iter_objects_yields_all_frames (fun m => (some m : Option (List Nat)))
    [[1, 2], []]
    (by
      intro m hm
      refine ⟨rfl, ?_⟩
      simp only [List.mem_cons, List.not_mem_nil, or_false] at hm
      rcases hm with rfl | rfl <;> norm_num)
  simpa using h.1

theorem decodeVarintList_all_continuation :
    ∀ (l : List Nat) (s acc : Nat), l ≠ [] → (∀ b ∈ l, b &&& 128 ≠ 0) →
      ∃ e, decodeVarintList s acc l = .error e := by
  intro l
  induction l with
  | nil => intro s acc h _; exact absurd rfl h
  | cons b rest ih =>
    intro s acc _ hall
    rw [decodeVarintList]
    have hb : ¬ ((b &&& 128) == 0) := by simpa using hall b (by simp)
    rw [if_neg hb]
    by_cases hg : 64 ≤ s + 7
    · rw [if_pos hg]
      exact ⟨.tooManyBytes, rfl⟩
    · rw [if_neg hg]
      by_cases hrnil : rest = []
      · subst hrnil
        exact ⟨.indexError, rfl⟩
      · obtain ⟨e, he⟩ := ih (s + 7) (acc ||| ((b &&& 127) <<< s)) hrnil
          fun x hx => hall x (by simp [hx])
        exact ⟨e, by rw [he]⟩

/-- C3, amended: when the varint LENGTH PREFIX of a frame runs past the end
of the buffer (here: the buffer ends in a non-empty run of bytes that all
have the continuation bit set), the decoding loop raises a decode error at
that point, after yielding exactly the earlier complete frames — never a
silently short sequence.  (A message BODY that runs past the end is not an
error: Python slicing silently truncates it, see the counterexample.) -/
theorem c3_truncated_varint_raises {α : Type} (parse : List Nat → Option α)
    (msgs : List (List Nat)) (junk : List Nat)
    (hjne : junk ≠ []) (hjc : ∀ b ∈ junk, b &&& 128 ≠ 0)
    (hmsgs : ∀ m ∈ msgs, (parse m).isSome ∧ m.length < 2 ^ 32) :
    ∃ e, iter_objects parse (frames msgs ++ junk) = (msgs.filterMap parse, some e) := by
  rw [iter_objects]
  have h0 : (frames msgs ++ junk).drop 0 = frames msgs ++ junk := by simp
  rw [iterObjectsAux_frames parse junk msgs _ 0 h0 hmsgs, Nat.zero_add]
  have hdropj : (frames msgs ++ junk).drop (frames msgs).length = junk :=
    List.drop_left _ _
  have hjpos : 0 < junk.length := List.length_pos.mpr hjne
  have hlt : (frames msgs).length < (frames msgs ++ junk).length := by
    rw [List.length_append]
    omega
  obtain ⟨e, he⟩ := decodeVarintList_all_continuation junk 0 0 hjne hjc
  have hdv : decodeVarint32 (frames msgs ++ junk) (frames msgs).length = .error e := by
    rw [decodeVarint32, hdropj, he]
  have htail : iterObjectsAux parse (frames msgs ++ junk) (frames msgs).length =
      ([], some e) := by
    rw [iterObjectsAux, dif_pos hlt]
    split
    · rename_i e' heq
      rw [hdv] at heq
      injection heq with h1
      subst h1
      rfl
    · rename_i ml np heq
      rw [hdv] at heq
      cases heq
  rw [htail]
  exact ⟨e, by simp⟩

/-- Witness for the amended C3 at a concrete buffer: one complete frame
followed by a lone continuation byte. -/
theorem c3_truncated_varint_raises_witness :
    ∃ e, iter_objects (fun m => (some m : Option (List Nat))) (frames [[7]] ++ [129]) =
      ([[7]], some e) := by
  have h := c3_truncated_varint_raises (fun m => (some m : Option (List Nat)))
    [[7]] [129] (by simp)
    (by intro b hb; simp only [List.mem_singleton] at hb; subst hb; decide)
    (by
      intro m hm
      simp only [List.mem_singleton] at hm
      subst hm
      exact ⟨rfl, by norm_num⟩)
  simpa using h

/-- Read one base-128 varint from the front of a byte list, returning the
value and the remaining bytes (`none` when the bytes end mid-varint). -/
def readVarintBytes : List Nat → Option (Nat × List Nat)
  | [] => none
  | b :: rest =>
    if b &&& 128 == 0 then some (b &&& 127, rest)
    else
      match readVarintBytes rest with
      | some (v, r) => some ((b &&& 127) ||| (v <<< 7), r)
      | none => none

/-- Whether a byte list is a well-formed protobuf wire string: a sequence of
tag/value pairs (tag varint with non-zero field number; wire types 0 varint,
1 eight bytes, 2 length-prefixed, 5 four bytes).  `fuel` bounds the
recursion; `fuel = length` always suffices since each field consumes at
least one byte. -/
def wireFieldsOk : Nat → List Nat → Bool
  | _, [] => true
  | 0, _ :: _ => false
  | fuel + 1, b :: rest =>
    match readVarintBytes (b :: rest) with
    | none => false
    | some (tag, r1) =>
      if tag >>> 3 == 0 then false
      else
        match tag &&& 7 with
        | 0 =>
          match readVarintBytes r1 with
          | some (_, r2) => wireFieldsOk fuel r2
          | none => false
        | 1 => if 8 ≤ r1.length then wireFieldsOk fuel (r1.drop 8) else false
        | 2 =>
          match readVarintBytes r1 with
          | some (len, r2) =>
            if len ≤ r2.length then wireFieldsOk fuel (r2.drop len) else false
          | none => false
        | 5 => if 4 ≤ r1.length then wireFieldsOk fuel (r1.drop 4) else false
        | _ => false

/-- Model of protobuf `Message().ParseFromString` as the record decoder:
it accepts exactly the well-formed wire strings (in particular the EMPTY
byte string parses, yielding a record with every field at its default),
and the decoded record is modelled by the raw bytes. -/
def pbParseFromString (bs : List Nat) : Option (List Nat) :=
  if wireFieldsOk bs.length bs then some bs else none

/-- Counterexample to C3 as stated: in the buffer `[5]` the varint length
prefix announces a 5-byte message body where 0 bytes remain, yet
`iter_objects` raises no decode error — Python's slice silently truncates
to the empty slice, `ParseFromString` accepts it, and the loop yields one
(empty) record and ends. -/
theorem c3_counterexample :
    decodeVarint32 [5] 0 = .ok (5, 1) ∧
    ([5] : List Nat).length < 1 + 5 ∧
    iter_objects pbParseFromString [5] = ([[]], none) := by
  refine ⟨rfl, by norm_num, ?_⟩
  rw [iter_objects, iterObjectsAux, dif_pos (by norm_num)]
  split
  · rename_i e heq
    rw [show decodeVarint32 [5] 0 = .ok (5, 1) from rfl] at heq
    cases heq
  · rename_i ml np heq
    rw [show decodeVarint32 [5] 0 = .ok (5, 1) from rfl] at heq
    simp only [Except.ok.injEq, Prod.mk.injEq] at heq
    obtain ⟨h1, h2⟩ := heq
    subst h1
    subst h2
    rw [show pbParseFromString ((([5] : List Nat).drop 1).take 5) = some [] from rfl]
    simp [iterObjectsAux_past_end pbParseFromString [5] (1 + 5) (by norm_num)]

/-- C7: `truncate_id` is a pure prefix operation: the result has length
`min 12 (length id)` and is a prefix of `id`. -/
theorem c7_truncate_id_prefix_of_id (i : String) :
    (truncate_id i).length = min 12 i.length ∧ (truncate_id i).data <+: i.data := by
  constructor
  · show (i.data.take 12).length = min 12 i.data.length
    simp
  · exact List.take_prefix 12 i.data

theorem bankersRound_intCast (m : ℤ) : bankersRound (m : ℚ) = m := by
  rw [bankersRound]
  rw [Int.floor_intCast]
  norm_num

/-- C9: coordinate rounding at 7 decimal places is idempotent. -/
theorem c9_round_coord_idempotent (v : ℚ) :
    round_coord (round_coord v) = round_coord v := by
  have key : ∀ m : ℤ, round_coord ((m : ℚ) / 10 ^ 7) = (m : ℚ) / 10 ^ 7 := by
    intro m
    rw [round_coord, div_mul_cancel₀ _ (by norm_num : ((10 : ℚ) ^ 7) ≠ 0),
      bankersRound_intCast]
  rw [show round_coord v = (bankersRound (v * 10 ^ 7) : ℚ) / 10 ^ 7 from rfl]
  exact key _

/-- C6: a reference whose `locationReferences` does not have exactly two
entries makes `reference_feature` raise (the tuple unpacking fails) instead
of producing a record. -/
theorem c6_reference_feature_requires_two (r : Reference)
    (h : r.locationReferences.length ≠ 2) : reference_feature r = none := by
  rcases hl : r.locationReferences with _ | ⟨LR0, _ | ⟨LR1, _ | ⟨LR2, rest⟩⟩⟩
  · simp [reference_feature, hl]
  · simp [reference_feature, hl]
  · rw [hl] at h
    simp at h
  · simp [reference_feature, hl]

/-- Witness for C6: a reference with a single location-reference entry. -/
theorem c6_reference_feature_requires_two_witness :
    (Reference.mk "ref" "geom" 1 [⟨"X", 1, 2, 3, 4, 5⟩]).locationReferences.length ≠ 2 ∧
    reference_feature (Reference.mk "ref" "geom" 1 [⟨"X", 1, 2, 3, 4, 5⟩]) = none :=
  ⟨by decide, c6_reference_feature_requires_two _ (by decide)⟩

/-- C5: a reference with exactly two location-reference entries projects to
exactly two output entries in fixed order: entry 0 with `sequence = 0`,
truncated intersection id, `distanceToNextRef`, `bearing =
inboundBearing`, `outBearing = outboundBearing` and the rounded point;
entry 1 with `sequence = 1`, truncated intersection id, the three scalar
fields null, and the rounded point. -/
theorem c5_reference_feature_projection (r : Reference) (LR0 LR1 : LocationReference)
    (h : r.locationReferences = [LR0, LR1]) :
    ∃ out, reference_feature r = some out ∧
      out.locationReferences.length = 2 ∧
      out.locationReferences =
        [ { sequence := 0
            intersectionId := truncate_id LR0.intersectionId
            distanceToNextRef := some LR0.distanceToNextRef
            bearing := some LR0.inboundBearing
            outBearing := some LR0.outboundBearing
            point := [round_coord LR0.lon, round_coord LR0.lat] },
          { sequence := 1
            intersectionId := truncate_id LR1.intersectionId
            distanceToNextRef := none
            bearing := none
            outBearing := none
            point := [round_coord LR1.lon, round_coord LR1.lat] } ] := by
  rw [reference_feature, h]
  exact ⟨_, rfl, rfl, rfl⟩

/-- A concrete reference record matching the end-to-end scenario of the
spec (section 8). -/
def lrX : LocationReference := ⟨"X", 1.2345678901, 2.3456789012, 10, 90, 95⟩

def lrY : LocationReference := ⟨"Y", 1.1, 2.2, 0, 0, 0⟩

def refW : Reference := ⟨"refid", "geomid", 3, [lrX, lrY]⟩

/-- Witness for C5 at the spec's concrete scenario, including the rounded
values the spec names. -/
theorem c5_reference_feature_projection_witness :
    refW.locationReferences = [lrX, lrY] ∧
    (∃ out, reference_feature refW = some out ∧
      out.locationReferences.length = 2 ∧
      out.locationReferences =
        [ { sequence := 0
            intersectionId := truncate_id lrX.intersectionId
            distanceToNextRef := some lrX.distanceToNextRef
            bearing := some lrX.inboundBearing
            outBearing := some lrX.outboundBearing
            point := [round_coord lrX.lon, round_coord lrX.lat] },
          { sequence := 1
            intersectionId := truncate_id lrY.intersectionId
            distanceToNextRef := none
            bearing := none
            outBearing := none
            point := [round_coord lrY.lon, round_coord lrY.lat] } ]) ∧
    round_coord lrX.lon = 1.2345679 ∧ round_coord lrX.lat = 2.3456789 := by
  refine ⟨rfl, c5_reference_feature_projection refW lrX lrY rfl, ?_, ?_⟩
  · have hf : ⌊lrX.lon * 10 ^ 7⌋ = (12345678 : ℤ) := by
      rw [Int.floor_eq_iff]
      constructor <;> norm_num [lrX]
    rw [round_coord, bankersRound, hf]
    norm_num [lrX]
  · have hf : ⌊lrX.lat * 10 ^ 7⌋ = (23456789 : ℤ) := by
      rw [Int.floor_eq_iff]
      constructor <;> norm_num [lrX]
    rw [round_coord, bankersRound, hf]
    norm_num [lrX]

theorem evenItems_ne_nil (l : List ℚ) (h : l ≠ []) : evenItems l ≠ [] := by
  cases l with
  | nil => exact absurd rfl h
  | cons x t =>
    cases t with
    | nil => simp [evenItems]
    | cons y r => simp [evenItems]

theorem oddItems_ne_nil (l : List ℚ) (h : 2 ≤ l.length) : oddItems l ≠ [] := by
  cases l with
  | nil => simp at h
  | cons x t =>
    cases t with
    | nil => simp at h
    | cons y r => simp [oddItems]

theorem evenItems_length (l : List ℚ) : (evenItems l).length = (l.length + 1) / 2 := by
  induction l using evenItems.induct <;> simp_all [evenItems] <;> omega

theorem oddItems_length (l : List ℚ) : (oddItems l).length = l.length / 2 := by
  induction l using oddItems.induct <;> simp_all [oddItems] <;> omega

theorem round_coord_intCast (m : ℤ) : round_coord (m : ℚ) = m := by
  rw [round_coord]
  have hcast : (m : ℚ) * 10 ^ 7 = ((m * 10 ^ 7 : ℤ) : ℚ) := by push_cast; ring
  rw [hcast, bankersRound_intCast]
  push_cast
  rw [mul_div_assoc]
  norm_num

/-- C4: on a non-empty flattened lon/lat pair sequence (even length, at
least one pair), `is_inside` returns a boolean that is true exactly when
the geometry's envelope and the bbox overlap or touch, bounds inclusive on
both sides. -/
theorem c4_is_inside_envelope_overlap (southwest northeast : Location) (g : Geometry)
    (heven : g.lonlats.length % 2 = 0) (hne : g.lonlats ≠ []) :
    ∃ minLon maxLon minLat maxLat,
      (evenItems g.lonlats).min? = some minLon ∧
      (evenItems g.lonlats).max? = some maxLon ∧
      (oddItems g.lonlats).min? = some minLat ∧
      (oddItems g.lonlats).max? = some maxLat ∧
      is_inside southwest northeast g =
        some (decide (southwest.lon ≤ maxLon ∧ minLon ≤ northeast.lon ∧
          southwest.lat ≤ maxLat ∧ minLat ≤ northeast.lat)) := by
  have hpos : 0 < g.lonlats.length := List.length_pos.mpr hne
  have h2 : 2 ≤ g.lonlats.length := by omega
  have hev := evenItems_ne_nil g.lonlats hne
  have hod := oddItems_ne_nil g.lonlats h2
  cases hE : evenItems g.lonlats with
  | nil => exact absurd hE hev
  | cons a t =>
    cases hO : oddItems g.lonlats with
    | nil => exact absurd hO hod
    | cons b u =>
      refine ⟨t.foldl min a, t.foldl max a, u.foldl min b, u.foldl max b,
        rfl, rfl, rfl, rfl, ?_⟩
      simp only [is_inside, hE, hO, List.max?, List.min?]
      by_cases h1 : t.foldl max a < southwest.lon ∨ northeast.lon < t.foldl min a
      · rw [if_pos h1]
        have hc : ¬ (southwest.lon ≤ t.foldl max a ∧ t.foldl min a ≤ northeast.lon ∧
            southwest.lat ≤ u.foldl max b ∧ u.foldl min b ≤ northeast.lat) := by
          rintro ⟨c1, c2, c3, c4⟩
          rcases h1 with h | h <;> linarith
        simp [hc]
      · rw [if_neg h1]
        push_neg at h1
        by_cases hb : u.foldl max b < southwest.lat ∨ northeast.lat < u.foldl min b
        · rw [if_pos hb]
          have hc : ¬ (southwest.lon ≤ t.foldl max a ∧ t.foldl min a ≤ northeast.lon ∧
              southwest.lat ≤ u.foldl max b ∧ u.foldl min b ≤ northeast.lat) := by
            rintro ⟨c1, c2, c3, c4⟩
            rcases hb with h | h <;> linarith
          simp [hc]
        · rw [if_neg hb]
          push_neg at hb
          have hc : southwest.lon ≤ t.foldl max a ∧ t.foldl min a ≤ northeast.lon ∧
              southwest.lat ≤ u.foldl max b ∧ u.foldl min b ≤ northeast.lat :=
            ⟨h1.1, h1.2, hb.1, hb.2⟩
          simp [hc]

/-- A two-point geometry inside the witness bbox. -/
def gPair : Geometry := ⟨"gp", "a", "b", "f", "k", 0, [1, 2, 3, 4]⟩

/-- Bbox corners used by the concrete witnesses and counterexamples. -/
def swC : Location := ⟨0, 0⟩

def neC : Location := ⟨10, 10⟩

/-- Witness for C4 at a concrete geometry and bbox. -/
theorem c4_is_inside_envelope_overlap_witness :
    gPair.lonlats.length % 2 = 0 ∧ gPair.lonlats ≠ [] ∧
    (∃ minLon maxLon minLat maxLat,
      (evenItems gPair.lonlats).min? = some minLon ∧
      (evenItems gPair.lonlats).max? = some maxLon ∧
      (oddItems gPair.lonlats).min? = some minLat ∧
      (oddItems gPair.lonlats).max? = some maxLat ∧
      is_inside swC neC gPair =
        some (decide (swC.lon ≤ maxLon ∧ minLon ≤ neC.lon ∧
          swC.lat ≤ maxLat ∧ minLat ≤ neC.lat))) :=
  ⟨by decide, by decide, c4_is_inside_envelope_overlap swC neC gPair (by decide) (by decide)⟩

/-- A geometry with a single (odd) lone coordinate value. -/
def gSingle : Geometry := ⟨"g1", "a", "b", "f", "k", 0, [5]⟩

/-- C10 counterexample: `gSingle` has a NON-EMPTY `lonlats` (one lone
longitude), yet `is_inside` still raises (`max` of the empty latitude
list), so non-emptiness does not make the error branch unreachable. -/
theorem c10_counterexample :
    gSingle.lonlats ≠ [] ∧ is_inside swC neC gSingle = none := by
  constructor
  · decide
  · decide

/-- C10, amended: `is_inside` raises on an empty `lonlats`, and its error
branch is unreachable exactly under the stronger precondition that
`lonlats` has at least TWO elements (so both the longitude and the latitude
list are non-empty); a single-element sequence can still raise. -/
theorem c10_is_inside_total_of_two_le (southwest northeast : Location) (g : Geometry) :
    (g.lonlats = [] → is_inside southwest northeast g = none) ∧
    (2 ≤ g.lonlats.length → (is_inside southwest northeast g).isSome = true) := by
  constructor
  · intro h
    simp [is_inside, h, evenItems, List.max?]
  · intro h2
    have hev := evenItems_ne_nil g.lonlats (by intro hc; rw [hc] at h2; simp at h2)
    have hod := oddItems_ne_nil g.lonlats h2
    cases hE : evenItems g.lonlats with
    | nil => exact absurd hE hev
    | cons a t =>
      cases hO : oddItems g.lonlats with
      | nil => exact absurd hO hod
      | cons b u =>
        simp only [is_inside, hE, hO, List.max?, List.min?]
        by_cases h1 : t.foldl max a < southwest.lon ∨ northeast.lon < t.foldl min a
        · simp [h1]
        · rw [if_neg h1]
          by_cases hb : u.foldl max b < southwest.lat ∨ northeast.lat < u.foldl min b
          · simp [hb]
          · simp [hb]

/-- An empty-coordinates geometry for the witnesses. -/
def gNil : Geometry := ⟨"g0", "a", "b", "f", "k", 0, []⟩

/-- Witness for the amended C10 at concrete geometries. -/
theorem c10_is_inside_total_of_two_le_witness :
    is_inside swC neC gNil = none ∧ (is_inside swC neC gPair).isSome = true :=
  ⟨(c10_is_inside_total_of_two_le swC neC gNil).1 rfl,
   (c10_is_inside_total_of_two_le swC neC gPair).2 (by decide)⟩

/-- A geometry with an odd-length (5-element) coordinate sequence. -/
def gOdd : Geometry := ⟨"gid", "a", "b", "f", "k", 0, [1, 2, 3, 4, 5]⟩

/-- C8 counterexample: `gOdd` has an odd-length (5-element) coordinate
sequence, yet nothing raises: the bbox filter accepts it and
`geometry_feature` silently projects two coordinate pairs, dropping the
trailing unpaired value — there is no ShapeError in the code. -/
theorem c8_counterexample :
    gOdd.lonlats.length % 2 = 1 ∧
    is_inside swC neC gOdd = some true ∧
    (geometry_feature gOdd).coordinates = [[1, 2], [3, 4]] := by
  refine ⟨by decide, by decide, ?_⟩
  have h1 : round_coord (1 : ℚ) = 1 := by simpa using round_coord_intCast 1
  have h2 : round_coord (2 : ℚ) = 2 := by simpa using round_coord_intCast 2
  have h3 : round_coord (3 : ℚ) = 3 := by simpa using round_coord_intCast 3
  have h4 : round_coord (4 : ℚ) = 4 := by simpa using round_coord_intCast 4
  have h5 : round_coord (5 : ℚ) = 5 := by simpa using round_coord_intCast 5
  simp [geometry_feature, gOdd, evenItems, oddItems, h1, h2, h3, h4, h5]

/-- C8, amended: the only raise for malformed coordinate sequences is
`max` of an empty sequence in `is_inside` when `lonlats` is empty; a
geometry with an odd-length sequence is not rejected — `geometry_feature`
silently projects `⌊n / 2⌋` coordinate pairs, truncating the unpaired
trailing value. -/
theorem c8_geometry_shape_amended (southwest northeast : Location) (g : Geometry) :
    (g.lonlats = [] → is_inside southwest northeast g = none) ∧
    (geometry_feature g).coordinates.length = g.lonlats.length / 2 := by
  constructor
  · intro h
    simp [is_inside, h, evenItems, List.max?]
  · simp only [geometry_feature, List.length_map, List.length_zip,
      evenItems_length, oddItems_length]
    omega

/-- Witness for the amended C8 at concrete geometries. -/
theorem c8_geometry_shape_amended_witness :
    is_inside swC neC gNil = none ∧
    (geometry_feature gOdd).coordinates.length = gOdd.lonlats.length / 2 :=
  ⟨(c8_geometry_shape_amended swC neC gNil).1 rfl,
   (c8_geometry_shape_amended swC neC gOdd).2⟩

theorem mem_dictKeys_dictInsert {α : Type} (d : Dict α) (k : String) (v : α) (s : String) :
    s ∈ dictKeys (dictInsert d k v) ↔ s ∈ dictKeys d ∨ s = k := by
  rw [dictInsert]
  split
  · rename_i hany
    have hkeys : dictKeys (d.map fun p => if p.1 == k then (k, v) else p) = dictKeys d := by
      rw [dictKeys, List.map_map, dictKeys]
      apply List.map_congr_left
      intro p _
      by_cases hpk : p.1 == k
      · have : p.1 = k := by simpa using hpk
        simp [hpk, this]
      · have hne : ¬ p.1 = k := by simpa using hpk
        simp [hpk, hne]
    rw [hkeys]
    have hk : k ∈ dictKeys d := by
      rcases List.any_eq_true.mp hany with ⟨p, hp, hpk⟩
      have : p.1 = k := by simpa using hpk
      exact List.mem_map.mpr ⟨p, hp, this⟩
    constructor
    · exact Or.inl
    · rintro (h | rfl)
      · exact h
      · exact hk
  · rw [dictKeys, List.map_append]
    simp [dictKeys]

theorem mem_dictKeys_foldl {α : Type} (key : α → String) :
    ∀ (items : List α) (d : Dict α) (s : String),
      s ∈ dictKeys (items.foldl (fun d it => dictInsert d (key it) it) d) ↔
        s ∈ dictKeys d ∨ ∃ it ∈ items, key it = s := by
  intro items
  induction items with
  | nil => simp
  | cons x rest ih =>
    intro d s
    simp only [List.foldl_cons]
    rw [ih, mem_dictKeys_dictInsert]
    simp only [List.mem_cons]
    constructor
    · rintro ((h | h) | ⟨it, hit, hkey⟩)
      · exact Or.inl h
      · exact Or.inr ⟨x, Or.inl rfl, h.symm⟩
      · exact Or.inr ⟨it, Or.inr hit, hkey⟩
    · rintro (h | ⟨it, hit | hit, hkey⟩)
      · exact Or.inl (Or.inl h)
      · subst hit
        exact Or.inl (Or.inr hkey.symm)
      · exact Or.inr ⟨it, hit, hkey⟩

theorem mem_dictKeys_buildDict {α : Type} (key : α → String) (items : List α) (s : String) :
    s ∈ dictKeys (buildDict key items) ↔ ∃ it ∈ items, key it = s := by
  rw [buildDict, mem_dictKeys_foldl]
  simp [dictKeys]

/-- C1: for every bbox and source datasets, the intersections mapping
returned by `get_tile` has key set exactly the from/to intersection ids of
the geometries of the returned (bbox-filtered) geometries mapping,
intersected with the ids present in the source intersection layer; and the
references mapping has key set exactly the ids of source references whose
`geometryId` is a key of the filtered geometries mapping. -/
theorem c1_get_tile_join_key_sets (southwest northeast : Location)
    (geomSrc : List Geometry) (interSrc : List Intersection) (refSrc : List Reference)
    (G : Dict Geometry) (I : Dict Intersection) (R : Dict Reference)
    (h : get_tile southwest northeast geomSrc interSrc refSrc = some (G, I, R)) :
    (∀ s, s ∈ dictKeys I ↔
      ((∃ g ∈ dictValues G, s = g.fromIntersectionId ∨ s = g.toIntersectionId) ∧
        ∃ i ∈ interSrc, i.id = s)) ∧
    (∀ s, s ∈ dictKeys R ↔ ∃ r ∈ refSrc, r.id = s ∧ r.geometryId ∈ dictKeys G) := by
  rw [get_tile] at h
  cases hf : filterInside southwest northeast geomSrc with
  | none =>
    rw [hf] at h
    cases h
  | some gs =>
    rw [hf] at h
    simp only [Option.some.injEq, Prod.mk.injEq] at h
    obtain ⟨hG, hI, hR⟩ := h
    subst hG
    subst hI
    subst hR
    constructor
    · intro s
      rw [mem_dictKeys_buildDict]
      constructor
      · rintro ⟨i, hi, rfl⟩
        rw [List.mem_filter] at hi
        obtain ⟨hisrc, hmem⟩ := hi
        have hflat : i.id ∈ (dictValues (buildDict Geometry.id gs)).flatMap
            (fun geom => [geom.fromIntersectionId, geom.toIntersectionId]) := by
          simpa using hmem
        rw [List.mem_flatMap] at hflat
        obtain ⟨geom, hgeom, hmem2⟩ := hflat
        simp only [List.mem_cons, List.not_mem_nil, or_false] at hmem2
        exact ⟨⟨geom, hgeom, hmem2⟩, ⟨i, hisrc, rfl⟩⟩
      · rintro ⟨⟨geom, hgeom, hside⟩, ⟨i, hisrc, rfl⟩⟩
        refine ⟨i, ?_, rfl⟩
        rw [List.mem_filter]
        refine ⟨hisrc, ?_⟩
        have hflat : i.id ∈ (dictValues (buildDict Geometry.id gs)).flatMap
            (fun geom => [geom.fromIntersectionId, geom.toIntersectionId]) :=
          List.mem_flatMap.mpr ⟨geom, hgeom, by
            simp only [List.mem_cons, List.not_mem_nil, or_false]
            exact hside⟩
        simpa using hflat
    · intro s
      rw [mem_dictKeys_buildDict]
      constructor
      · rintro ⟨r, hr, rfl⟩
        rw [List.mem_filter] at hr
        obtain ⟨hrsrc, hmem⟩ := hr
        exact ⟨r, hrsrc, rfl, by simpa using hmem⟩
      · rintro ⟨r, hrsrc, rfl, hgeo⟩
        refine ⟨r, ?_, rfl⟩
        rw [List.mem_filter]
        exact ⟨hrsrc, by simpa using hgeo⟩

/-- Concrete records for the C1 witness: one geometry inside the bbox, one
matching intersection, one unmatched intersection, one matching reference
and one dangling reference. -/
def gW : Geometry := ⟨"gw", "ia", "ib", "f", "k", 0, [1, 2, 3, 4]⟩

def iW : Intersection := ⟨"ia", 1, 2, [], []⟩

def iZ : Intersection := ⟨"zz", 1, 2, [], []⟩

def rW : Reference := ⟨"rw", "gw", 1, []⟩

def rZ : Reference := ⟨"rz", "nope", 1, []⟩

/-- Witness for C1 on a concrete one-geometry tile. -/
theorem c1_get_tile_join_key_sets_witness :
    get_tile swC neC [gW] [iW, iZ] [rW, rZ] =
      some ([("gw", gW)], [("ia", iW)], [("rw", rW)]) ∧
    ((∀ s, s ∈ dictKeys [("ia", iW)] ↔
      ((∃ g ∈ dictValues [("gw", gW)], s = g.fromIntersectionId ∨ s = g.toIntersectionId) ∧
        ∃ i ∈ [iW, iZ], i.id = s)) ∧
    (∀ s, s ∈ dictKeys [("rw", rW)] ↔
      ∃ r ∈ [rW, rZ], r.id = s ∧ r.geometryId ∈ dictKeys [("gw", gW)])) := by
  have hrun : get_tile swC neC [gW] [iW, iZ] [rW, rZ] =
      some ([("gw", gW)], [("ia", iW)], [("rw", rW)]) := by rfl
  exact ⟨hrun, c1_get_tile_join_key_sets swC neC [gW] [iW, iZ] [rW, rZ] _ _ _ hrun⟩

end SharedStreets
